import Mathlib

/-!
Shallow embedding of the core pipeline of the Job_alert_tool repository:
IdentityKey normalisation, deduplication, relevance scoring with keyword
fallback, keyword profile matching, adapter standardisation, the AI
processing stage of the orchestrator, and the local storage client.

Python strings are modelled as Lean `String`s (lists of unicode scalar
values); `str.lower`, `str.strip`, `str.split` and substring containment are
modelled character-wise, matching CPython's behaviour on the ASCII inputs the
pipeline manipulates. Python floats are modelled as exact rationals.
-/

/-- Character predicate of the IdentityKey normalisation
(src/utils/helpers.py line 80): a character is kept when it is alphanumeric
or whitespace (Python `c.isalnum() or c.isspace()`). -/
def keepChar (c : Char) : Bool := c.isAlphanum || c.isWhitespace

/-- Python `s.split()`: the maximal runs of non-whitespace characters. -/
def pyWords (l : List Char) : List (List Char) :=
  (l.splitOnP (fun c => c.isWhitespace)).filter (fun w => !w.isEmpty)

/-- Python `" ".join(s.split())`: collapse whitespace runs to single spaces
and drop edge whitespace. -/
def pyCollapse (l : List Char) : List Char :=
  List.intercalate [' '] (pyWords l)

/-- Python `str.lower()` on a whole string (basic-latin model, as Lean's
`Char.toLower`). -/
def pyLower (s : String) : String := String.mk (s.data.map Char.toLower)

/-- Python `str.strip()`: drop whitespace from both ends. -/
def pyStrip (l : List Char) : List Char :=
  ((l.dropWhile (fun c => c.isWhitespace)).reverse.dropWhile
    (fun c => c.isWhitespace)).reverse

/-- Component normalisation of `_normalize_job_key`
(src/utils/helpers.py lines 78-82): keep alphanumeric/space characters,
lowercase each kept character, then collapse whitespace. -/
def normComponent (s : String) : String :=
  String.mk (pyCollapse ((s.data.filter keepChar).map Char.toLower))

/-- helpers._normalize_job_key (src/utils/helpers.py lines 78-82): the
cross-run IdentityKey `normalized(title) + "|" + normalized(company)`. -/
def normalizeJobKey (title company : String) : String :=
  normComponent title ++ "|" ++ normComponent company

/-- LocalStorageClient._normalize_key (src/storage/local_storage.py
lines 82-86), textually identical to helpers._normalize_job_key. -/
def storageNormalizeKey (title company : String) : String :=
  normComponent title ++ "|" ++ normComponent company

/-- Component of JobScraperManager._job_key (src/scrapers/__init__.py
lines 136-143): `title.lower().strip()` followed by dropping
non-alphanumeric non-space characters; whitespace runs are NOT collapsed. -/
def jobKeyComponent (s : String) : String :=
  String.mk ((pyStrip (s.data.map Char.toLower)).filter keepChar)

/-- JobScraperManager._job_key: the within-batch aggregator key. -/
def scraperJobKey (title company : String) : String :=
  jobKeyComponent title ++ "|" ++ jobKeyComponent company

/-- Job dictionary restricted to the fields the verified stages read. -/
structure Job where
  title : String := ""
  company : String := ""
  description : String := ""
  skills : List String := []
  source : String := ""
  deriving DecidableEq

/-- IdentityKey of a job dictionary under the cross-run normalisation. -/
def jobIdentityKey (j : Job) : String := normalizeJobKey j.title j.company

/-- Loop of deduplicate_jobs (src/utils/helpers.py lines 61-72): `seen`
models the `seen_in_batch` set accumulated so far. -/
def dedupGo (existingKeys : List String) (seen : List String) :
    List Job → List Job
  | [] => []
  | j :: rest =>
    let k := jobIdentityKey j
    if k ∉ existingKeys ∧ k ∉ seen then
      j :: dedupGo existingKeys (k :: seen) rest
    else
      dedupGo existingKeys seen rest

/-- deduplicate_jobs (src/utils/helpers.py lines 42-75): drop postings whose
IdentityKey is among the existing (title, company) pairs or was already seen
earlier in the batch. -/
def deduplicateJobs (newJobs : List Job) (existingJobs : List (String × String)) :
    List Job :=
  dedupGo (existingJobs.map (fun p => normalizeJobKey p.1 p.2)) [] newJobs

/-- EnhancedJobScorer.HIGH_RELEVANCE (src/llm/job_scorer.py lines 26-31). -/
def HIGH_RELEVANCE : List String :=
  ["machine learning engineer", "ml engineer", "ai engineer",
   "deep learning engineer", "data scientist", "research scientist",
   "applied scientist", "nlp engineer", "computer vision engineer",
   "mlops engineer", "ml platform", "ai researcher", "llm engineer"]

/-- EnhancedJobScorer.MEDIUM_RELEVANCE (src/llm/job_scorer.py lines 34-38). -/
def MEDIUM_RELEVANCE : List String :=
  ["data engineer", "ml ", " ml", " ai ", "ai ", "analytics engineer",
   "research engineer", "quantitative", "machine learning",
   "artificial intelligence", "neural network", "deep learning"]

/-- EnhancedJobScorer.LOW_RELEVANCE (src/llm/job_scorer.py lines 41-44). -/
def LOW_RELEVANCE : List String :=
  ["data analyst", "business intelligence", "python developer",
   "backend engineer", "software engineer", "full stack"]

/-- Python substring containment `kw in s`. -/
def strContainsSub (s kw : String) : Bool := decide (kw.data <:+: s.data)

/-- Text scanned by the fallback scorer: lowercased title + " " + description
(src/llm/job_scorer.py lines 142-144). -/
def scorerCombinedText (job : Job) : String :=
  pyLower job.title ++ " " ++ pyLower job.description

/-- EnhancedJobScorer._fallback_score (src/llm/job_scorer.py lines 140-161):
sequentially check HIGH (9), MEDIUM (7), LOW (5) keyword tiers against the
combined text, returning on the first tier with a match, else 3. -/
def fallbackScore (job : Job) : Int :=
  let combined := scorerCombinedText job
  if HIGH_RELEVANCE.any (fun kw => strContainsSub combined kw) then 9
  else if MEDIUM_RELEVANCE.any (fun kw => strContainsSub combined kw) then 7
  else if LOW_RELEVANCE.any (fun kw => strContainsSub combined kw) then 5
  else 3

/-- Values produced by Python json.loads; numeric values are modelled as
integers, which covers every response relevant to the verified claims. -/
inductive JsonValue where
  | null : JsonValue
  | bool (b : Bool) : JsonValue
  | num (n : Int) : JsonValue
  | str (s : String) : JsonValue
  | arr (elems : List JsonValue) : JsonValue
  | obj (fields : List (String × JsonValue)) : JsonValue

/-- Python truthiness of a json.loads result. -/
def pyTruthy : JsonValue → Bool
  | .null => false
  | .bool b => b
  | .num n => n != 0
  | .str s => !s.isEmpty
  | .arr l => !l.isEmpty
  | .obj l => !l.isEmpty

/-- Python membership test `"score" in result`: key membership for a dict,
element membership for a list, substring test for a string, and a TypeError
for int/bool/None operands. -/
def pyHasScore : JsonValue → Except String Bool
  | .obj kvs => .ok (kvs.any (fun kv => kv.1 == "score"))
  | .arr l =>
    .ok (l.any (fun v =>
      match v with
      | .str s => s == "score"
      | _ => false))
  | .str s => .ok (strContainsSub s "score")
  | _ => .error "TypeError: argument is not iterable"

/-- Python subscript `result["score"]`: dict lookup; a string subscript on a
str/list/int operand raises a TypeError. -/
def pyGetScore : JsonValue → Except String JsonValue
  | .obj kvs =>
    match kvs.find? (fun kv => kv.1 == "score") with
    | some kv => .ok kv.2
    | none => .error "KeyError: score"
  | _ => .error "TypeError: invalid subscript"

/-- Python `int(str)`: surrounding whitespace is ignored, an optional sign
precedes a non-empty digit run; anything else raises a ValueError. -/
def pyStrToInt (s : String) : Option Int :=
  let l := pyStrip s.data
  let sign : Int :=
    match l with
    | '-' :: _ => -1
    | _ => 1
  let ds :=
    match l with
    | '-' :: rest => rest
    | '+' :: rest => rest
    | _ => l
  if ds.isEmpty || !(ds.all (fun c => c.isDigit)) then none
  else some (sign * ((ds.foldl (fun acc c => acc * 10 + (c.toNat - 48)) 0 : Nat) : Int))

/-- Python `int(x)`: ints unchanged, bools become 0/1, numeric strings are
parsed, everything else raises (ValueError for non-numeric strings,
TypeError for None/list/dict). -/
def pyInt : JsonValue → Except String Int
  | .num n => .ok n
  | .bool b => .ok (if b then 1 else 0)
  | .str s =>
    match pyStrToInt s with
    | some n => .ok n
    | none => .error "ValueError: invalid literal for int"
  | _ => .error "TypeError: int() argument"

/-- EnhancedJobScorer.score_relevance after the remote call
(src/llm/job_scorer.py lines 163-197). `parsed` is the result of
`_parse_llm_response(response)` (with `none` also covering an empty/failed
response, for which the source skips parsing entirely): if it is truthy and
contains a "score" member, the score is converted with int() and clamped to
[1, 10]; otherwise the keyword fallback is used. An `Except.error` models an
uncaught Python exception. -/
def scoreRelevance (job : Job) (parsed : Option JsonValue) : Except String Int :=
  match parsed with
  | none => .ok (fallbackScore job)
  | some result =>
    if pyTruthy result then
      match pyHasScore result with
      | .error e => .error e
      | .ok true =>
        match pyGetScore result with
        | .error e => .error e
        | .ok v =>
          match pyInt v with
          | .error e => .error e
          | .ok n => .ok (max 1 (min 10 n))
      | .ok false => .ok (fallbackScore job)
    else .ok (fallbackScore job)

/-- Result dictionary of ResumeMatcher.match_job as consumed by
process_jobs_with_ai (match_score, matching_skills, missing_skills). -/
structure MatchResult where
  match_score : Int := 0
  matching_skills : List String := []
  missing_skills : List String := []
  deriving DecidableEq

/-- Scoring thresholds of the configuration (src/utils/config.py
lines 31-32); floats are modelled as exact rationals. -/
structure Config where
  min_relevance_score : Int := 5
  min_combined_score : Rat := 5
  deriving DecidableEq

/-- Job dictionary after process_jobs_with_ai added its derived fields
(src/main.py lines 107-112 and 126-131). -/
structure ScoredJob where
  job : Job
  relevance_score : Int
  match_score : Int
  combined_score : Rat
  ai_score : Int
  matching_skills : List String
  missing_skills : List String
  deriving DecidableEq

/-- Python round-half-to-even of a rational to an integer. -/
def pyRoundHalfEven (q : Rat) : Int :=
  let f := q.floor
  let r := q - f
  if r < 1/2 then f
  else if 1/2 < r then f + 1
  else if f % 2 = 0 then f else f + 1

/-- Python `round(x, 1)`. -/
def pyRound1 (q : Rat) : Rat := ((pyRoundHalfEven (q * 10) : Rat)) / 10

/-- combined_score = relevance * 0.4 + match * 0.6 (src/main.py line 104). -/
def combinedOf (relevance ms : Int) : Rat :=
  (relevance : Rat) * (2/5) + (ms : Rat) * (3/5)

/-- Hardcoded keyword set of the per-posting error fallback
(src/main.py line 125). -/
def ERROR_FALLBACK_KEYWORDS : List String :=
  ["machine learning", "ai ", "ml ", "data scientist"]

/-- Body of the per-job loop of process_jobs_with_ai (src/main.py
lines 86-132). `score` and `matchJob` model scorer.score_relevance and
resume_matcher.match_job; an `Except.error` models the call raising, which
the source catches per posting: the posting is then admitted with fixed
scores 7/5/6 when its lowercased title contains an error-fallback keyword,
else dropped. -/
def handleJob (score : Job → Except Unit Int)
    (matchJob : Job → Except Unit MatchResult) (cfg : Config) (job : Job) :
    List ScoredJob :=
  let errFallback : List ScoredJob :=
    if ERROR_FALLBACK_KEYWORDS.any
        (fun kw => strContainsSub (pyLower job.title) kw) then
      [{ job := job, relevance_score := 7, match_score := 5,
         combined_score := 6, ai_score := 6,
         matching_skills := [], missing_skills := [] }]
    else []
  match score job with
  | .error _ => errFallback
  | .ok relevance =>
    if relevance < cfg.min_relevance_score then []
    else
      match matchJob job with
      | .error _ => errFallback
      | .ok mr =>
        let combined := combinedOf relevance mr.match_score
        if cfg.min_combined_score ≤ combined then
          [{ job := job, relevance_score := relevance,
             match_score := mr.match_score,
             combined_score := pyRound1 combined,
             ai_score := pyRoundHalfEven combined,
             matching_skills := mr.matching_skills,
             missing_skills := mr.missing_skills }]
        else []

/-- process_jobs_with_ai (src/main.py lines 65-138): handle each posting in
order, then stable-sort descending by the stored combined_score (Python
list.sort with reverse=True is stable). -/
def processJobsWithAI (score : Job → Except Unit Int)
    (matchJob : Job → Except Unit MatchResult) (cfg : Config)
    (jobs : List Job) : List ScoredJob :=
  (jobs.flatMap (handleJob score matchJob cfg)).mergeSort
    (fun a b => b.combined_score ≤ a.combined_score)

/-- Output dictionary of ResumeMatcher._keyword_match. The source renders
matching/missing as lists sliced to 10 entries for display; the sets
themselves (and the score computed from them) are modelled. -/
structure KeywordMatchOut where
  match_score : Int
  matching_skills : Finset String
  missing_skills : Finset String
  deriving DecidableEq

/-- ResumeMatcher._keyword_match (src/llm/resume_matcher.py lines 164-190).
`extractedSkills` is the value of `_extract_skills_from_text` on the job's
title + " " + description (a word-boundary regex scan over SKILL_PATTERNS),
taken as an input of the embedding; the explicit job['skills'] list is
lowercased and unioned in as in the source. The score is 5 when the job has
no extractable skills, else `min(10, max(1, int(ratio * 10) + 2))` where
ratio is |matching| / |jobSkills| (Python int() truncates the non-negative
ratio, i.e. floors). -/
def keywordMatch (userSkills : Finset String) (extractedSkills : Finset String)
    (listedSkills : List String) : KeywordMatchOut :=
  let jobSkills := extractedSkills ∪ (listedSkills.map pyLower).toFinset
  let matching := userSkills ∩ jobSkills
  let missing := jobSkills \ userSkills
  let score : Int :=
    if jobSkills = ∅ then 5
    else ((min 10 (max 1 (10 * matching.card / jobSkills.card + 2)) : Nat) : Int)
  { match_score := score, matching_skills := matching,
    missing_skills := missing }

/-- Standardized job dictionary produced by BaseScraper._standardize_job. -/
structure StdJob where
  title : String
  company : String
  location : String
  link : String
  date_posted : String
  source : String
  description : String
  salary : String
  job_type : String
  experience_level : String
  skills : List String
  scraped_at : String
  deriving DecidableEq

/-- BaseScraper._standardize_job (src/scrapers/base.py lines 106-140).
`sourceName` is the adapter's SOURCE_NAME; `now` and `nowIso` stand for the
two datetime.now() renderings. Python `x.strip() if x else d` substitutes
the default only for a falsy (empty/None) value; a whitespace-only string is
truthy and is stripped. `date_posted or now` falls back for None and for the
empty string; `skills or []` likewise. The description is sliced to its
first 1000 characters. -/
def standardizeJob (sourceName now nowIso : String)
    (title company location link : String) (datePosted : Option String)
    (description salary jobType experienceLevel : String)
    (skills : Option (List String)) : StdJob :=
  { title :=
      if title.isEmpty then "Unknown" else String.mk (pyStrip title.data),
    company :=
      if company.isEmpty then "Unknown" else String.mk (pyStrip company.data),
    location :=
      if location.isEmpty then "Remote" else String.mk (pyStrip location.data),
    link := if link.isEmpty then "" else String.mk (pyStrip link.data),
    date_posted :=
      match datePosted with
      | some d => if d.isEmpty then now else d
      | none => now,
    source := sourceName,
    description :=
      if description.isEmpty then ""
      else String.mk (description.data.take 1000),
    salary := salary,
    job_type := jobType,
    experience_level := experienceLevel,
    skills :=
      match skills with
      | some l => l
      | none => [],
    scraped_at := nowIso }

/-- CSV headers of the local store (src/storage/local_storage.py
lines 26-30). -/
def HEADERS : List String :=
  ["Date", "Job Title", "Company", "Location", "Link", "Source",
   "Relevance Score", "Match Score", "Combined Score", "Status",
   "Matching Skills", "Missing Skills", "Salary", "Job Type"]

/-- Job dictionary fields read by the storage client's analytics. -/
structure StorageJob where
  source : String := "Unknown"
  matching_skills : List String := []
  deriving DecidableEq

/-- One bucket of analytics['daily_stats']; avg_score is initialised to 0 and
never updated by the source. -/
structure DailyStat where
  count : Nat := 0
  avg_score : Int := 0
  deriving DecidableEq

/-- analytics.json content (src/storage/local_storage.py lines 74-80). -/
structure Analytics where
  daily_stats : List (String × DailyStat) := []
  source_stats : List (String × Nat) := []
  skill_frequency : List (String × Nat) := []
  deriving DecidableEq

/-- Durable state of LocalStorageClient: the CSV rows, the JSON job list
with each job's added_at timestamp, the metadata total, the identity index
(key to first-seen timestamp) and the analytics counters. The purely
informational metadata timestamps are not modelled. -/
structure Store where
  csv : List (List String) := [HEADERS]
  jobs : List (StorageJob × String) := []
  totalJobs : Nat := 0
  index : List (String × String) := []
  analytics : Analytics := {}
  deriving DecidableEq

/-- State of a freshly initialised store (_ensure_files_exist on a missing
data directory, src/storage/local_storage.py lines 48-80). -/
def emptyStore : Store := {}

/-- Python dict membership `k in d` on an association list. -/
def hasKey {α : Type} (d : List (String × α)) (k : String) : Bool :=
  d.any (fun p => p.1 == k)

/-- Python dict assignment `d[k] = v` on an association list. -/
def dictSet {α : Type} (d : List (String × α)) (k : String) (v : α) :
    List (String × α) :=
  if d.any (fun p => p.1 == k) then
    d.map (fun p => if p.1 == k then (k, v) else p)
  else d ++ [(k, v)]

/-- Python `d.get(k, dflt)` on an association list. -/
def dictGet {α : Type} (d : List (String × α)) (k : String) (dflt : α) : α :=
  match d.find? (fun p => p.1 == k) with
  | some p => p.2
  | none => dflt

/-- LocalStorageClient.job_exists (src/storage/local_storage.py
lines 115-119): IdentityKey membership in the index. -/
def jobExists (s : Store) (title company : String) : Bool :=
  hasKey s.index (storageNormalizeKey title company)

/-- LocalStorageClient._update_analytics (src/storage/local_storage.py
lines 174-200) on the analytics value; `none` models the empty dict passed
as `job_dict or {}` when no job dictionary was supplied, making
`job.get('source', 'Unknown')` return the default. -/
def updateAnalytics (today : String) (jobOpt : Option StorageJob)
    (a : Analytics) : Analytics :=
  let daily0 :=
    if hasKey a.daily_stats today then a.daily_stats
    else dictSet a.daily_stats today {}
  let cur := dictGet daily0 today {}
  let a1 : Analytics :=
    { a with daily_stats :=
        dictSet daily0 today { cur with count := cur.count + 1 } }
  let src :=
    match jobOpt with
    | some j => j.source
    | none => "Unknown"
  let a2 : Analytics :=
    { a1 with source_stats :=
        dictSet a1.source_stats src (dictGet a1.source_stats src 0 + 1) }
  let skills : List String :=
    match jobOpt with
    | some j => j.matching_skills
    | none => []
  let freq1 :=
    skills.foldl
      (fun freq sk =>
        dictSet freq (pyLower sk) (dictGet freq (pyLower sk) 0 + 1))
      a2.skill_frequency
  { a2 with skill_frequency := freq1 }

/-- LocalStorageClient.append_job (src/storage/local_storage.py
lines 121-172). The title and company are row entries 1 and 2 (empty when
the row is too short); if the IdentityKey is already indexed the call is a
no-op returning false. Otherwise the row is padded/truncated to the header
width and appended to the CSV, the job dictionary (when supplied) is
appended to the JSON list with an added_at timestamp and the metadata total
is recomputed, the index gains the key with the current timestamp, and the
analytics are updated. `now` and `today` stand for the datetime.now()
renderings. -/
def appendJob (s : Store) (now today : String) (rowData : List String)
    (jobDict : Option StorageJob) : Bool × Store :=
  let title := rowData.getD 1 ""
  let company := rowData.getD 2 ""
  if jobExists s title company then (false, s)
  else
    let padded :=
      (rowData ++ List.replicate (HEADERS.length - rowData.length) "").take
        HEADERS.length
    let jobs1 :=
      match jobDict with
      | some j => s.jobs ++ [(j, now)]
      | none => s.jobs
    let total1 :=
      match jobDict with
      | some _ => jobs1.length
      | none => s.totalJobs
    (true,
      { csv := s.csv ++ [padded], jobs := jobs1, totalJobs := total1,
        index := dictSet s.index (storageNormalizeKey title company) now,
        analytics := updateAnalytics today jobDict s.analytics })

/-- Strict configuration used to exhibit the threshold bypass: minimum
combined score 7 (MIN_COMBINED_SCORE is operator-configurable,
src/utils/config.py line 32). -/
def cfgStrict : Config := { min_relevance_score := 5, min_combined_score := 7 }

/-- Scorer whose remote call raises for every posting. -/
def raisingScorer : Job → Except Unit Int := fun _ => .error ()

/-- Matcher returning the default result for every posting. -/
def trivialMatcher : Job → Except Unit MatchResult := fun _ => .ok {}

/-- Posting whose lowercased title contains the error-fallback keyword
"ai ". -/
def aiTitledJob : Job := { title := "AI Engineer at Foo" }

/-!
Theorems. Helper lemmas come first, then one theorem per claim together
with its witness or counterexample.
-/

theorem hasKey_dictSet_self {α : Type} (d : List (String × α)) (k : String)
    (v : α) : hasKey (dictSet d k v) k = true := by
  unfold hasKey dictSet
  split
  next h =>
    obtain ⟨p, hp, hpk⟩ := List.any_eq_true.mp h
    refine List.any_eq_true.mpr ⟨(k, v), List.mem_map.mpr ⟨p, hp, ?_⟩, by simp⟩
    rw [if_pos hpk]
  next h =>
    refine List.any_eq_true.mpr ⟨(k, v), by simp, by simp⟩

/-- C2: score_relevance is claimed to return a clamped integer in [1, 10]
and never raise for any inference response. The code contradicts this (and
its own docstring "Returns: Integer score from 1-10"): the response "5"
parses via json.loads to the integer 5, which is truthy, and the membership
test `"score" in result` then raises a TypeError; the response
`{"score": "high"}` is valid JSON whose score field makes `int(...)` raise a
ValueError. -/
theorem score_relevance_uncaught_exception :
    scoreRelevance { title := "ML Engineer" } (some (.num 5)) =
      .error "TypeError: argument is not iterable" ∧
    scoreRelevance { title := "ML Engineer" }
        (some (.obj [("score", .str "high")])) =
      .error "ValueError: invalid literal for int" :=
  ⟨rfl, rfl⟩

/-- C3 counterexample: the titles "ML  Engineer" and "ML Engineer" differ
only in internal whitespace (the cross-run normalisation maps them to the
same key), yet the within-batch aggregator key JobScraperManager._job_key
distinguishes them, because it never collapses whitespace runs. -/
theorem scraper_key_not_whitespace_insensitive :
    normalizeJobKey "ML  Engineer" "TechCo" =
      normalizeJobKey "ML Engineer" "TechCo" ∧
    scraperJobKey "ML  Engineer" "TechCo" ≠
      scraperJobKey "ML Engineer" "TechCo" := by
  refine ⟨rfl, ?_⟩
  decide

/-- C9 counterexample: a whitespace-only raw title is truthy in Python, so
_standardize_job strips it to the empty string instead of substituting the
"Unknown" sentinel; the standardized posting has an empty title. -/
theorem standardize_whitespace_title_not_replaced :
    (standardizeJob "Test" "2024-01-01" "iso" "   " "Acme" "" "" none
        "" "" "" "" none).title = "" ∧
    (standardizeJob "Test" "2024-01-01" "iso" "   " "Acme" "" "" none
        "" "" "" "" none).title ≠ "Unknown" := by
  refine ⟨rfl, ?_⟩
  decide

/-- C5 counterexample: with a configured minimum combined score of 7, a
posting whose scoring raises and whose title contains "ai " is admitted by
the per-posting error fallback with combined_score 6, below the threshold. -/
theorem error_fallback_below_threshold :
    (processJobsWithAI raisingScorer trivialMatcher cfgStrict
        [aiTitledJob]).map (fun sj => sj.combined_score) = [6] ∧
    ¬ (cfgStrict.min_combined_score ≤ (6 : Rat)) := by
  constructor
  · have h : [aiTitledJob].flatMap
        (handleJob raisingScorer trivialMatcher cfgStrict) =
        [{ job := aiTitledJob, relevance_score := 7, match_score := 5,
           combined_score := 6, ai_score := 6, matching_skills := [],
           missing_skills := [] }] := rfl
    unfold processJobsWithAI
    rw [h, List.mergeSort_singleton]
    rfl
  · decide

theorem appendJob_some_of_not_exists (s : Store) (now today : String)
    (row : List String) (j : StorageJob)
    (h : jobExists s (row.getD 1 "") (row.getD 2 "") = false) :
    appendJob s now today row (some j) =
      (true,
        { csv := s.csv ++
            [(row ++ List.replicate (HEADERS.length - row.length) "").take
              HEADERS.length],
          jobs := s.jobs ++ [(j, now)],
          totalJobs := s.jobs.length + 1,
          index := dictSet s.index
            (storageNormalizeKey (row.getD 1 "") (row.getD 2 "")) now,
          analytics := updateAnalytics today (some j) s.analytics }) := by
  simp only [appendJob]
  rw [h]
  simp

theorem appendJob_of_exists (s : Store) (now today : String)
    (row : List String) (jd : Option StorageJob)
    (h : jobExists s (row.getD 1 "") (row.getD 2 "") = true) :
    appendJob s now today row jd = (false, s) := by
  simp only [appendJob]
  rw [h]
  simp

/-- C1: append_job is idempotent on IdentityKey. If a posting's key is not
yet indexed, the first append returns true and grows the stored job list by
exactly one (and keeps the metadata total consistent); a second append with
the same title and company returns false and leaves the entire store state
unchanged. -/
theorem append_job_idempotent (s : Store) (now today now2 today2 : String)
    (row row2 : List String) (j j2 : StorageJob)
    (hkey : jobExists s (row.getD 1 "") (row.getD 2 "") = false)
    (ht : row2.getD 1 "" = row.getD 1 "")
    (hc : row2.getD 2 "" = row.getD 2 "") :
    (appendJob s now today row (some j)).1 = true ∧
    (appendJob (appendJob s now today row (some j)).2 now2 today2 row2
        (some j2)).1 = false ∧
    (appendJob (appendJob s now today row (some j)).2 now2 today2 row2
        (some j2)).2 = (appendJob s now today row (some j)).2 ∧
    (appendJob s now today row (some j)).2.jobs.length = s.jobs.length + 1 ∧
    (appendJob s now today row (some j)).2.totalJobs = s.jobs.length + 1 := by
  have e1 := appendJob_some_of_not_exists s now today row j hkey
  have h2 : jobExists (appendJob s now today row (some j)).2
      (row2.getD 1 "") (row2.getD 2 "") = true := by
    rw [e1]
    show hasKey (dictSet s.index
      (storageNormalizeKey (row.getD 1 "") (row.getD 2 "")) now)
      (storageNormalizeKey (row2.getD 1 "") (row2.getD 2 "")) = true
    rw [ht, hc]
    exact hasKey_dictSet_self _ _ _
  have e2 := appendJob_of_exists _ now2 today2 row2 (some j2) h2
  refine ⟨by rw [e1], by rw [e2], by rw [e2], ?_, by rw [e1]⟩
  rw [e1]
  simp

/-- Witness for C1 at a concrete fresh store and posting. -/
theorem append_job_idempotent_witness :
    (appendJob emptyStore "t1" "d1" ["2024-01-15", "ML Engineer", "TestCo"]
        (some { source := "Test", matching_skills := [] })).1 = true ∧
    (appendJob
        (appendJob emptyStore "t1" "d1"
          ["2024-01-15", "ML Engineer", "TestCo"]
          (some { source := "Test", matching_skills := [] })).2
        "t2" "d2" ["2024-01-16", "ML Engineer", "TestCo"]
        (some { source := "X", matching_skills := [] })).1 = false := by
  have h := append_job_idempotent emptyStore "t1" "d1" "t2" "d2"
    ["2024-01-15", "ML Engineer", "TestCo"]
    ["2024-01-16", "ML Engineer", "TestCo"]
    { source := "Test", matching_skills := [] }
    { source := "X", matching_skills := [] }
    (by decide) rfl rfl
  exact ⟨h.1, h.2.1⟩

/-- C7: the fallback scorer returns exactly 9 when some HIGH_RELEVANCE
keyword occurs in the combined text, else 7 when some MEDIUM_RELEVANCE
keyword occurs, else 5 when some LOW_RELEVANCE keyword occurs, and 3
otherwise; tiers are checked high to medium to low and the first matching
tier wins. -/
theorem fallback_score_tiers (job : Job) :
    (fallbackScore job = 9 ↔
      ∃ kw ∈ HIGH_RELEVANCE,
        strContainsSub (scorerCombinedText job) kw = true) ∧
    (fallbackScore job = 7 ↔
      (¬ ∃ kw ∈ HIGH_RELEVANCE,
        strContainsSub (scorerCombinedText job) kw = true) ∧
      ∃ kw ∈ MEDIUM_RELEVANCE,
        strContainsSub (scorerCombinedText job) kw = true) ∧
    (fallbackScore job = 5 ↔
      (¬ ∃ kw ∈ HIGH_RELEVANCE,
        strContainsSub (scorerCombinedText job) kw = true) ∧
      (¬ ∃ kw ∈ MEDIUM_RELEVANCE,
        strContainsSub (scorerCombinedText job) kw = true) ∧
      ∃ kw ∈ LOW_RELEVANCE,
        strContainsSub (scorerCombinedText job) kw = true) ∧
    (fallbackScore job = 3 ↔
      (¬ ∃ kw ∈ HIGH_RELEVANCE,
        strContainsSub (scorerCombinedText job) kw = true) ∧
      (¬ ∃ kw ∈ MEDIUM_RELEVANCE,
        strContainsSub (scorerCombinedText job) kw = true) ∧
      ¬ ∃ kw ∈ LOW_RELEVANCE,
        strContainsSub (scorerCombinedText job) kw = true) := by
  simp only [fallbackScore]
  split_ifs with h1 h2 h3 <;>
    simp_all [List.any_eq_true]

/-- Witness for C7: a core ML title scores 9 through the HIGH tier. -/
theorem fallback_score_tiers_witness :
    fallbackScore { title := "Senior Machine Learning Engineer" } = 9 :=
  (fallback_score_tiers _).1.mpr
    ⟨"machine learning engineer", by decide, by decide⟩

theorem dedupGo_mem_key (ex : List String) :
    ∀ (l : List Job) (seen : List String), ∀ j ∈ dedupGo ex seen l,
      jobIdentityKey j ∉ ex ∧ jobIdentityKey j ∉ seen := by
  intro l
  induction l with
  | nil => intro seen j hj; cases hj
  | cons i rest ih =>
    intro seen j hj
    simp only [dedupGo] at hj
    split at hj
    next hcond =>
      rcases List.mem_cons.mp hj with rfl | hj2
      · exact hcond
      · have h := ih (jobIdentityKey i :: seen) j hj2
        exact ⟨h.1, fun hs => h.2 (List.mem_cons_of_mem _ hs)⟩
    next hcond =>
      exact ih seen j hj

theorem dedupGo_sublist (ex : List String) :
    ∀ (l : List Job) (seen : List String), List.Sublist (dedupGo ex seen l) l := by
  intro l
  induction l with
  | nil => intro seen; simp [dedupGo]
  | cons i rest ih =>
    intro seen
    simp only [dedupGo]
    split
    · exact .cons₂ i (ih _)
    · exact .cons i (ih _)

theorem dedupGo_first_occurrence (ex : List String) :
    ∀ (l : List Job) (seen : List String), ∀ j ∈ dedupGo ex seen l,
      l.find? (fun x => jobIdentityKey x == jobIdentityKey j) = some j := by
  intro l
  induction l with
  | nil => intro seen j hj; cases hj
  | cons i rest ih =>
    intro seen j hj
    simp only [dedupGo] at hj
    split at hj
    next hcond =>
      rcases List.mem_cons.mp hj with rfl | hj2
      · exact List.find?_cons_of_pos _ (by simp)
      · have h := dedupGo_mem_key ex rest (jobIdentityKey i :: seen) j hj2
        have hne : (jobIdentityKey i == jobIdentityKey j) = false := by
          simp only [beq_eq_false_iff_ne, ne_eq]
          intro he
          exact h.2 (by rw [← he]; exact List.mem_cons_self _ _)
        have hstep : List.find? (fun x => jobIdentityKey x == jobIdentityKey j)
            (i :: rest) =
            List.find? (fun x => jobIdentityKey x == jobIdentityKey j) rest := by
          simp [List.find?, hne]
        rw [hstep]
        exact ih _ j hj2
    next hcond =>
      have h := dedupGo_mem_key ex rest seen j hj
      have hne : (jobIdentityKey i == jobIdentityKey j) = false := by
        simp only [beq_eq_false_iff_ne, ne_eq]
        intro he
        rcases not_and_or.mp hcond with hx | hx
        · exact h.1 (he ▸ not_not.mp hx)
        · exact h.2 (he ▸ not_not.mp hx)
      have hstep : List.find? (fun x => jobIdentityKey x == jobIdentityKey j)
          (i :: rest) =
          List.find? (fun x => jobIdentityKey x == jobIdentityKey j) rest := by
        simp [List.find?, hne]
      rw [hstep]
      exact ih seen j hj

theorem dedupGo_keys_nodup (ex : List String) :
    ∀ (l : List Job) (seen : List String),
      ((dedupGo ex seen l).map jobIdentityKey).Nodup := by
  intro l
  induction l with
  | nil => intro seen; simp [dedupGo]
  | cons i rest ih =>
    intro seen
    simp only [dedupGo]
    split
    · simp only [List.map_cons, List.nodup_cons]
      refine ⟨?_, ih _⟩
      intro hmem
      obtain ⟨j, hj, hkey⟩ := List.mem_map.mp hmem
      have h := dedupGo_mem_key ex rest (jobIdentityKey i :: seen) j hj
      exact h.2 (by rw [hkey]; exact List.mem_cons_self _ _)
    · exact ih _

theorem dedupGo_keeps_unique (ex : List String) :
    ∀ (l : List Job) (seen : List String) (j : Job), j ∈ l →
      l.countP (fun x => jobIdentityKey x == jobIdentityKey j) = 1 →
      jobIdentityKey j ∉ ex → jobIdentityKey j ∉ seen →
      j ∈ dedupGo ex seen l := by
  intro l
  induction l with
  | nil => intro seen j hj; cases hj
  | cons i rest ih =>
    intro seen j hj hu hex hseen
    by_cases hik : jobIdentityKey i = jobIdentityKey j
    · have hcount : rest.countP
          (fun x => jobIdentityKey x == jobIdentityKey j) = 0 := by
        rw [List.countP_cons] at hu
        simp only [hik, beq_self_eq_true, if_true] at hu
        omega
      have hji : j = i := by
        rcases List.mem_cons.mp hj with rfl | hj2
        · rfl
        · exact absurd (by simp : (jobIdentityKey j == jobIdentityKey j) = true)
            (List.countP_eq_zero.mp hcount j hj2)
      subst hji
      simp only [dedupGo]
      rw [if_pos ⟨hex, hseen⟩]
      exact List.mem_cons_self _ _
    · have hj2 : j ∈ rest := by
        rcases List.mem_cons.mp hj with rfl | h
        · exact absurd rfl hik
        · exact h
      have hu2 : rest.countP
          (fun x => jobIdentityKey x == jobIdentityKey j) = 1 := by
        rw [List.countP_cons] at hu
        simp only [beq_iff_eq, hik, if_false] at hu
        omega
      simp only [dedupGo]
      split
      next hcond =>
        refine List.mem_cons_of_mem _ (ih _ j hj2 hu2 hex ?_)
        intro hm
        rcases List.mem_cons.mp hm with he | hm2
        · exact hik he.symm
        · exact hseen hm2
      next hcond =>
        exact ih _ j hj2 hu2 hex hseen

/-- C4: deduplicate_jobs is a pure filter. No returned posting has its
IdentityKey among the existing keys, and no posting whose key is unique
within the batch and absent from the existing keys is dropped. -/
theorem dedup_pure_filter (newJobs : List Job)
    (existingJobs : List (String × String)) :
    (∀ j ∈ deduplicateJobs newJobs existingJobs,
      jobIdentityKey j ∉
        existingJobs.map (fun p => normalizeJobKey p.1 p.2)) ∧
    (∀ j ∈ newJobs,
      newJobs.countP (fun x => jobIdentityKey x == jobIdentityKey j) = 1 →
      jobIdentityKey j ∉
        existingJobs.map (fun p => normalizeJobKey p.1 p.2) →
      j ∈ deduplicateJobs newJobs existingJobs) := by
  constructor
  · intro j hj
    exact (dedupGo_mem_key _ newJobs [] j hj).1
  · intro j hj hu hex
    exact dedupGo_keeps_unique _ newJobs [] j hj hu hex (by simp)

/-- Witness for C4 at concrete batches: the unique new posting is kept and
nothing indexed is returned. -/
theorem dedup_pure_filter_witness :
    ({ title := "ML Engineer", company := "TechCorp" } : Job) ∈
      deduplicateJobs
        [{ title := "ML Engineer", company := "TechCorp" },
         { title := "Data Scientist", company := "StartupAI" }]
        [("data scientist", "startupai")] :=
  (dedup_pure_filter _ _).2 _ (by decide) (by decide) (by decide)

/-- C10: the output of deduplicate_jobs is a subsequence of the input, its
IdentityKeys are pairwise distinct, and every kept posting is the first
occurrence of its IdentityKey in input order. -/
theorem dedup_keeps_first_occurrence (newJobs : List Job)
    (existingJobs : List (String × String)) :
    List.Sublist (deduplicateJobs newJobs existingJobs) newJobs ∧
    ((deduplicateJobs newJobs existingJobs).map jobIdentityKey).Nodup ∧
    ∀ j ∈ deduplicateJobs newJobs existingJobs,
      newJobs.find? (fun x => jobIdentityKey x == jobIdentityKey j) =
        some j :=
  ⟨dedupGo_sublist _ newJobs [], dedupGo_keys_nodup _ newJobs [],
    fun j hj => dedupGo_first_occurrence _ newJobs [] j hj⟩

/-- Witness for C10: with a batch-internal duplicate (same key after
normalisation) the kept entry is the first occurrence. -/
theorem dedup_keeps_first_occurrence_witness :
    [Job.mk "ML Engineer" "TechCorp" "a" [] "",
     Job.mk "ml engineer!" "TechCorp" "b" [] ""].find?
      (fun x => jobIdentityKey x ==
        jobIdentityKey (Job.mk "ML Engineer" "TechCorp" "a" [] "")) =
      some (Job.mk "ML Engineer" "TechCorp" "a" [] "") :=
  (dedup_keeps_first_occurrence
      [Job.mk "ML Engineer" "TechCorp" "a" [] "",
       Job.mk "ml engineer!" "TechCorp" "b" [] ""] []).2.2
    (Job.mk "ML Engineer" "TechCorp" "a" [] "") (by decide)

theorem ratFloor_eq_intFloor (q : Rat) : q.floor = ⌊q⌋ :=
  (Rat.floor_def' q).trans Rat.floor_def.symm

theorem pyRoundHalfEven_intCast (k : Int) : pyRoundHalfEven ((k : Rat)) = k := by
  simp only [pyRoundHalfEven, ratFloor_eq_intFloor, Int.floor_intCast, sub_self]
  norm_num

theorem pyRound1_combinedOf (a b : Int) :
    pyRound1 (combinedOf a b) = combinedOf a b := by
  have h : combinedOf a b * 10 = ((4 * a + 6 * b : Int) : Rat) := by
    unfold combinedOf
    push_cast
    ring
  unfold pyRound1
  rw [h, pyRoundHalfEven_intCast, ← h]
  field_simp

theorem handleJob_mem (score : Job → Except Unit Int)
    (matchJob : Job → Except Unit MatchResult) (cfg : Config) (j : Job)
    (sj : ScoredJob) (h : sj ∈ handleJob score matchJob cfg j) :
    cfg.min_combined_score ≤ sj.combined_score ∨
    (sj.relevance_score = 7 ∧ sj.match_score = 5 ∧ sj.combined_score = 6) := by
  simp only [handleJob] at h
  split at h
  next =>
    split at h
    next =>
      right
      have he := List.mem_singleton.mp h
      subst he
      exact ⟨rfl, rfl, rfl⟩
    next => exact absurd h (List.not_mem_nil _)
  next r heq =>
    split at h
    next => exact absurd h (List.not_mem_nil _)
    next =>
      split at h
      next =>
        split at h
        next =>
          right
          have he := List.mem_singleton.mp h
          subst he
          exact ⟨rfl, rfl, rfl⟩
        next => exact absurd h (List.not_mem_nil _)
      next mr heq2 =>
        split at h
        next hacc =>
          left
          have he := List.mem_singleton.mp h
          subst he
          show cfg.min_combined_score ≤ pyRound1 (combinedOf r mr.match_score)
          rw [pyRound1_combinedOf]
          exact hacc
        next => exact absurd h (List.not_mem_nil _)

/-- C5 amended: every posting in the output of process_jobs_with_ai either
has combined_score at or above the configured minimum, or was admitted by
the per-posting error fallback with the fixed scores relevance 7, match 5,
combined 6 (which bypasses the threshold check). -/
theorem combined_threshold_or_error_fallback (score : Job → Except Unit Int)
    (matchJob : Job → Except Unit MatchResult) (cfg : Config)
    (jobs : List Job) :
    ∀ sj ∈ processJobsWithAI score matchJob cfg jobs,
      cfg.min_combined_score ≤ sj.combined_score ∨
      (sj.relevance_score = 7 ∧ sj.match_score = 5 ∧
        sj.combined_score = 6) := by
  intro sj hsj
  unfold processJobsWithAI at hsj
  rw [List.mem_mergeSort] at hsj
  obtain ⟨j, hj, hmem⟩ := List.mem_flatMap.mp hsj
  exact handleJob_mem score matchJob cfg j sj hmem

/-- Witness for the amended C5 at a concrete fallback-admitted posting. -/
theorem combined_threshold_or_error_fallback_witness :
    cfgStrict.min_combined_score ≤
      (ScoredJob.mk aiTitledJob 7 5 6 6 [] []).combined_score ∨
    ((ScoredJob.mk aiTitledJob 7 5 6 6 [] []).relevance_score = 7 ∧
     (ScoredJob.mk aiTitledJob 7 5 6 6 [] []).match_score = 5 ∧
     (ScoredJob.mk aiTitledJob 7 5 6 6 [] []).combined_score = 6) := by
  have hflat : [aiTitledJob].flatMap
      (handleJob raisingScorer trivialMatcher cfgStrict) =
      [ScoredJob.mk aiTitledJob 7 5 6 6 [] []] := rfl
  have hmem : ScoredJob.mk aiTitledJob 7 5 6 6 [] [] ∈
      processJobsWithAI raisingScorer trivialMatcher cfgStrict
        [aiTitledJob] := by
    unfold processJobsWithAI
    refine List.mem_mergeSort.mpr ?_
    rw [hflat]
    exact List.mem_singleton.mpr rfl
  exact combined_threshold_or_error_fallback _ _ _ _ _ hmem

theorem handleJob_of_low_relevance (score : Job → Except Unit Int)
    (matchJob : Job → Except Unit MatchResult) (cfg : Config) (j : Job)
    (r : Int) (hs : score j = .ok r) (hr : r < cfg.min_relevance_score) :
    handleJob score matchJob cfg j = [] := by
  simp only [handleJob, hs]
  rw [if_pos hr]

/-- C6: a posting whose relevance score is below the configured minimum is
discarded immediately: removing it from the batch leaves the stage output
unchanged, and for that posting alone the output is empty and identical for
any two matchers, i.e. match_job is never consulted. -/
theorem low_relevance_short_circuits (score : Job → Except Unit Int)
    (m m2 : Job → Except Unit MatchResult) (cfg : Config) (j : Job)
    (r : Int) (pre post : List Job) (hs : score j = .ok r)
    (hr : r < cfg.min_relevance_score) :
    processJobsWithAI score m cfg (pre ++ j :: post) =
      processJobsWithAI score m cfg (pre ++ post) ∧
    processJobsWithAI score m cfg [j] =
      processJobsWithAI score m2 cfg [j] ∧
    processJobsWithAI score m cfg [j] = [] := by
  have hz := handleJob_of_low_relevance score m cfg j r hs hr
  have hz2 := handleJob_of_low_relevance score m2 cfg j r hs hr
  refine ⟨?_, ?_, ?_⟩
  · unfold processJobsWithAI
    congr 1
    rw [List.flatMap_append, List.flatMap_cons, hz, List.flatMap_append]
    simp
  · unfold processJobsWithAI
    congr 1
    rw [List.flatMap_cons, List.flatMap_cons, hz, hz2]
    simp
  · unfold processJobsWithAI
    rw [List.flatMap_cons, hz]
    simp

/-- Witness for C6: a relevance-4 posting under the default threshold 5
produces no output and never reaches the matcher. -/
theorem low_relevance_short_circuits_witness :
    processJobsWithAI (fun _ => Except.ok 4) trivialMatcher {}
      [Job.mk "Data Analyst" "X" "" [] ""] = [] :=
  (low_relevance_short_circuits (fun _ => Except.ok 4) trivialMatcher
    trivialMatcher {} (Job.mk "Data Analyst" "X" "" [] "") 4 [] [] rfl
    (by decide)).2.2

/-- C8: the fallback keyword match score is 5 when the job has no
extractable skills, otherwise clamp(1, 10, floor(overlapRatio * 10) + 2)
with overlapRatio = |matching| / |jobSkills|; consequently it always lies in
[1, 10], and holding the job skill set fixed it never decreases as the
matching set grows (i.e. as the user skill set grows). -/
theorem keyword_match_formula (userSkills extractedSkills : Finset String)
    (listedSkills : List String) :
    ((extractedSkills ∪ (listedSkills.map pyLower).toFinset) = ∅ → (keywordMatch userSkills extractedSkills listedSkills).match_score = 5) ∧
    ((extractedSkills ∪ (listedSkills.map pyLower).toFinset) ≠ ∅ →
      (keywordMatch userSkills extractedSkills listedSkills).match_score = min 10 (max 1 (⌊((userSkills ∩ (extractedSkills ∪ (listedSkills.map pyLower).toFinset)).card : Rat) / ((extractedSkills ∪ (listedSkills.map pyLower).toFinset).card : Rat) * 10⌋ + 2))) ∧
    (1 ≤ (keywordMatch userSkills extractedSkills listedSkills).match_score ∧ (keywordMatch userSkills extractedSkills listedSkills).match_score ≤ 10) ∧
    (∀ userSkills2, userSkills ⊆ userSkills2 →
      (keywordMatch userSkills extractedSkills listedSkills).match_score ≤ (keywordMatch userSkills2 extractedSkills listedSkills).match_score) := by
  refine ⟨?_, ?_, ?_, ?_⟩
  · intro h
    simp only [keywordMatch]
    rw [if_pos h]
  · intro h
    simp only [keywordMatch]
    rw [if_neg h]
    have hcast : ((userSkills ∩ (extractedSkills ∪ (listedSkills.map pyLower).toFinset)).card : Rat) / ((extractedSkills ∪ (listedSkills.map pyLower).toFinset).card : Rat) * 10 =
        ((10 * (userSkills ∩ (extractedSkills ∪ (listedSkills.map pyLower).toFinset)).card : Nat) : Rat) / (((extractedSkills ∪ (listedSkills.map pyLower).toFinset).card : Nat) : Rat) := by
      push_cast
      ring
    have hfloor : ⌊((userSkills ∩ (extractedSkills ∪ (listedSkills.map pyLower).toFinset)).card : Rat) / ((extractedSkills ∪ (listedSkills.map pyLower).toFinset).card : Rat) * 10⌋ = ((10 * (userSkills ∩ (extractedSkills ∪ (listedSkills.map pyLower).toFinset)).card / (extractedSkills ∪ (listedSkills.map pyLower).toFinset).card : Nat) : Int) := by
      rw [hcast, Rat.floor_natCast_div_natCast, Int.natCast_div]
    rw [hfloor]
    push_cast
    rfl
  · simp only [keywordMatch]
    split_ifs with h
    · norm_num
    · constructor <;> omega
  · intro userSkills2 hsub
    have hcard : (userSkills ∩ (extractedSkills ∪ (listedSkills.map pyLower).toFinset)).card ≤ (userSkills2 ∩ (extractedSkills ∪ (listedSkills.map pyLower).toFinset)).card :=
      Finset.card_le_card (Finset.inter_subset_inter hsub Finset.Subset.rfl)
    simp only [keywordMatch]
    split_ifs with h
    · exact le_refl _
    · have hdiv : 10 * (userSkills ∩ (extractedSkills ∪ (listedSkills.map pyLower).toFinset)).card / (extractedSkills ∪ (listedSkills.map pyLower).toFinset).card ≤ 10 * (userSkills2 ∩ (extractedSkills ∪ (listedSkills.map pyLower).toFinset)).card / (extractedSkills ∪ (listedSkills.map pyLower).toFinset).card :=
        Nat.div_le_div_right (Nat.mul_le_mul_left 10 hcard)
      omega

/-- Witness for C8: bounds at a concrete profile and job skill set. -/
theorem keyword_match_formula_witness :
    1 ≤ (keywordMatch {"python"} {"python", "aws"} ["MLOps"]).match_score ∧
    (keywordMatch {"python"} {"python", "aws"} ["MLOps"]).match_score ≤ 10 :=
  (keyword_match_formula {"python"} {"python", "aws"} ["MLOps"]).2.2.1

theorem mem_dropWhile_of_neg {p : Char → Bool} :
    ∀ (l : List Char) (c : Char), c ∈ l → ¬ p c = true → c ∈ l.dropWhile p := by
  intro l
  induction l with
  | nil => intro c hc; cases hc
  | cons a t ih =>
    intro c hc hpc
    rw [List.dropWhile_cons]
    split
    next hpa =>
      rcases List.mem_cons.mp hc with rfl | h
      · exact absurd hpa hpc
      · exact ih c h hpc
    next hpa => exact hc

theorem pyStrip_ne_nil {l : List Char} (c : Char) (hc : c ∈ l)
    (hw : ¬ c.isWhitespace = true) : pyStrip l ≠ [] := by
  unfold pyStrip
  intro h
  rw [List.reverse_eq_nil_iff] at h
  have h1 : c ∈ l.dropWhile (fun c => c.isWhitespace) :=
    mem_dropWhile_of_neg l c hc hw
  have h2 : c ∈ (l.dropWhile (fun c => c.isWhitespace)).reverse :=
    List.mem_reverse.mpr h1
  have h3 : c ∈ ((l.dropWhile (fun c => c.isWhitespace)).reverse.dropWhile
      (fun c => c.isWhitespace)) :=
    mem_dropWhile_of_neg _ c h2 hw
  rw [h] at h3
  cases h3

/-- C9 amended: the sentinel "Unknown" is substituted exactly for a falsy
(empty) raw title or company; a raw value containing at least one
non-whitespace character standardizes to a non-empty value, while a
whitespace-only value strips to the empty string (the counterexample); and
the description is always bounded by 1000 characters. -/
theorem standardize_sentinels_amended (sourceName now nowIso title company
    location link : String) (datePosted : Option String)
    (description salary jobType experienceLevel : String)
    (skills : Option (List String)) :
    (title = "" →
      (standardizeJob sourceName now nowIso title company location link
        datePosted description salary jobType experienceLevel skills).title =
        "Unknown") ∧
    (company = "" →
      (standardizeJob sourceName now nowIso title company location link
        datePosted description salary jobType experienceLevel skills).company =
        "Unknown") ∧
    ((∃ c ∈ title.data, ¬ c.isWhitespace = true) →
      (standardizeJob sourceName now nowIso title company location link
        datePosted description salary jobType experienceLevel skills).title ≠
        "") ∧
    ((∃ c ∈ company.data, ¬ c.isWhitespace = true) →
      (standardizeJob sourceName now nowIso title company location link
        datePosted description salary jobType experienceLevel
        skills).company ≠ "") ∧
    (standardizeJob sourceName now nowIso title company location link
      datePosted description salary jobType experienceLevel
      skills).description.length ≤ 1000 := by
  refine ⟨?_, ?_, ?_, ?_, ?_⟩
  · intro h
    subst h
    rfl
  · intro h
    subst h
    rfl
  · rintro ⟨c, hc, hw⟩
    have hne : title.isEmpty = false := by
      cases ht : title.isEmpty
      · rfl
      · rw [(String.isEmpty_iff title).mp ht] at hc
        cases hc
    simp only [standardizeJob, hne, Bool.false_eq_true, if_false]
    intro heq
    have hdata : pyStrip title.data = [] := by
      have hcongr := congrArg String.data heq
      simpa using hcongr
    exact pyStrip_ne_nil c hc hw hdata
  · rintro ⟨c, hc, hw⟩
    have hne : company.isEmpty = false := by
      cases ht : company.isEmpty
      · rfl
      · rw [(String.isEmpty_iff company).mp ht] at hc
        cases hc
    simp only [standardizeJob, hne, Bool.false_eq_true, if_false]
    intro heq
    have hdata : pyStrip company.data = [] := by
      have hcongr := congrArg String.data heq
      simpa using hcongr
    exact pyStrip_ne_nil c hc hw hdata
  · simp only [standardizeJob]
    split
    · simp
    · show (String.mk (description.data.take 1000)).length ≤ 1000
      show (description.data.take 1000).length ≤ 1000
      simp [List.length_take]

/-- Witness for the amended C9: an empty title gets the sentinel, a normal
title stays non-empty, and the description is bounded. -/
theorem standardize_sentinels_amended_witness :
    (standardizeJob "Test" "2024-01-01" "iso" "" "Acme" "" "" none
      "" "" "" "" none).title = "Unknown" ∧
    (standardizeJob "Test" "2024-01-01" "iso" "ML Engineer" "Acme" "" "" none
      "" "" "" "" none).title ≠ "" :=
  ⟨(standardize_sentinels_amended "Test" "2024-01-01" "iso" "" "Acme" "" ""
      none "" "" "" "" none).1 rfl,
   (standardize_sentinels_amended "Test" "2024-01-01" "iso" "ML Engineer"
      "Acme" "" "" none "" "" "" "" none).2.2.1
      ⟨'M', by decide, by decide⟩⟩

theorem char_toLower_eq_self (c : Char)
    (h : ¬ (65 ≤ c.toNat ∧ c.toNat ≤ 90)) : c.toLower = c := by
  simp only [Char.toLower]
  rw [if_neg (show ¬ (Char.toNat c ≥ 65 ∧ Char.toNat c ≤ 90) from h)]

theorem char_toLower_idem (c : Char) : c.toLower.toLower = c.toLower := by
  by_cases h : 65 ≤ c.toNat ∧ c.toNat ≤ 90
  · obtain ⟨n, h1, h2, hc⟩ : ∃ n, 65 ≤ n ∧ n ≤ 90 ∧ Char.ofNat n = c :=
      ⟨c.toNat, h.1, h.2, Char.ofNat_toNat c⟩
    subst hc
    interval_cases n <;> decide
  · rw [char_toLower_eq_self c h, char_toLower_eq_self c h]

theorem keepChar_toLower {c : Char} (h : keepChar c = true) :
    keepChar c.toLower = true := by
  by_cases h65 : 65 ≤ c.toNat ∧ c.toNat ≤ 90
  · obtain ⟨n, h1, h2, hc⟩ : ∃ n, 65 ≤ n ∧ n ≤ 90 ∧ Char.ofNat n = c :=
      ⟨c.toNat, h65.1, h65.2, Char.ofNat_toNat c⟩
    subst hc
    interval_cases n <;> decide
  · rw [char_toLower_eq_self c h65]
    exact h

theorem splitOnP_chunk {p : Char → Bool} :
    ∀ (l : List Char), ∀ w ∈ l.splitOnP p, ∀ c ∈ w, c ∈ l ∧ p c = false := by
  intro l
  induction l with
  | nil =>
    intro w hw c hc
    simp only [List.splitOnP_nil, List.mem_singleton] at hw
    subst hw
    cases hc
  | cons a t ih =>
    intro w hw c hc
    rw [List.splitOnP_cons] at hw
    split at hw
    next hpa =>
      rcases List.mem_cons.mp hw with rfl | hw2
      · cases hc
      · have hx := ih w hw2 c hc
        exact ⟨List.mem_cons_of_mem _ hx.1, hx.2⟩
    next hpa =>
      cases hsplit : t.splitOnP p with
      | nil =>
        rw [hsplit] at hw
        cases hw
      | cons h0 rest =>
        rw [hsplit] at hw
        simp only [List.modifyHead] at hw
        rcases List.mem_cons.mp hw with rfl | hw2
        · rcases List.mem_cons.mp hc with rfl | hc2
          · exact ⟨List.mem_cons_self _ _, by simpa using hpa⟩
          · have hx := ih h0 (by rw [hsplit]; exact List.mem_cons_self _ _) c hc2
            exact ⟨List.mem_cons_of_mem _ hx.1, hx.2⟩
        · have hx := ih w (by rw [hsplit]; exact List.mem_cons_of_mem _ hw2) c hc
          exact ⟨List.mem_cons_of_mem _ hx.1, hx.2⟩

theorem intercalate_singleton_cons₂ (s : Char) (w w2 : List Char)
    (ws : List (List Char)) :
    List.intercalate [s] (w :: w2 :: ws) =
      w ++ s :: List.intercalate [s] (w2 :: ws) := by
  simp [List.intercalate, List.intersperse_cons₂]

theorem mem_intercalate_singleton {s : Char} :
    ∀ (ws : List (List Char)), ∀ c ∈ List.intercalate [s] ws,
      c = s ∨ ∃ w ∈ ws, c ∈ w := by
  intro ws
  induction ws with
  | nil =>
    intro c hc
    simp [List.intercalate] at hc
  | cons w ws ih =>
    cases ws with
    | nil =>
      intro c hc
      right
      exact ⟨w, by simp, by simpa [List.intercalate] using hc⟩
    | cons w2 ws2 =>
      intro c hc
      rw [intercalate_singleton_cons₂] at hc
      rcases List.mem_append.mp hc with h | h
      · right
        exact ⟨w, by simp, h⟩
      · rcases List.mem_cons.mp h with rfl | h2
        · left
          rfl
        · rcases ih c h2 with h3 | ⟨w3, hw3, hc3⟩
          · left
            exact h3
          · right
            exact ⟨w3, List.mem_cons_of_mem _ hw3, hc3⟩

theorem map_id_of_mem {f : Char → Char} :
    ∀ (l : List Char), (∀ c ∈ l, f c = c) → l.map f = l := by
  intro l
  induction l with
  | nil => intro _; rfl
  | cons a t ih =>
    intro h
    simp only [List.map_cons]
    rw [h a (by simp), ih (fun c hc => h c (List.mem_cons_of_mem _ hc))]

theorem pyWords_intercalate :
    ∀ ws : List (List Char), (∀ w ∈ ws, w ≠ []) →
      (∀ w ∈ ws, ∀ c ∈ w, ¬ c.isWhitespace = true) →
      pyWords (List.intercalate [' '] ws) = ws := by
  intro ws
  induction ws with
  | nil =>
    intro _ _
    rfl
  | cons w ws ih =>
    intro hne hws
    cases ws with
    | nil =>
      have h1 : List.intercalate [' '] [w] = w := by
        simp [List.intercalate]
      rw [h1]
      unfold pyWords
      rw [List.splitOnP_eq_single _ _
        (fun c hc => hws w (by simp) c hc)]
      have hwne : (!w.isEmpty) = true := by
        cases w with
        | nil => exact absurd rfl (hne [] (by simp))
        | cons a t => rfl
      simp [List.filter, hwne]
    | cons w2 ws2 =>
      rw [intercalate_singleton_cons₂]
      unfold pyWords
      rw [List.splitOnP_first _ _
        (fun c hc => hws w (by simp) c hc) ' ' (by decide)]
      have hwne : (!w.isEmpty) = true := by
        cases w with
        | nil => exact absurd rfl (hne [] (by simp))
        | cons a t => rfl
      simp only [List.filter_cons, hwne, if_true]
      have ihx := ih (fun v hv => hne v (List.mem_cons_of_mem _ hv))
        (fun v hv c hc => hws v (List.mem_cons_of_mem _ hv) c hc)
      unfold pyWords at ihx
      rw [ihx]

theorem normChars_idem (l : List Char) :
    pyCollapse (((pyCollapse ((l.filter keepChar).map Char.toLower)).filter
      keepChar).map Char.toLower) =
    pyCollapse ((l.filter keepChar).map Char.toLower) := by
  have hbaseProps : ∀ c ∈ (l.filter keepChar).map Char.toLower,
      keepChar c = true ∧ c.toLower = c := by
    intro c hc
    obtain ⟨k, hk, rfl⟩ := List.mem_map.mp hc
    have hkeep : keepChar k = true := (List.mem_filter.mp hk).2
    exact ⟨keepChar_toLower hkeep, char_toLower_idem k⟩
  have hwords : ∀ w ∈ pyWords ((l.filter keepChar).map Char.toLower),
      w ≠ [] ∧ ∀ c ∈ w,
        c.isWhitespace = false ∧ keepChar c = true ∧ c.toLower = c := by
    intro w hw
    have hw2 := List.mem_filter.mp hw
    constructor
    · intro hnil
      rw [hnil] at hw2
      simp at hw2
    · intro c hc
      have hchunk := splitOnP_chunk _ w hw2.1 c hc
      exact ⟨hchunk.2, (hbaseProps c hchunk.1).1, (hbaseProps c hchunk.1).2⟩
  have hkeepX : ∀ c ∈ pyCollapse ((l.filter keepChar).map Char.toLower),
      keepChar c = true ∧ c.toLower = c := by
    intro c hc
    rcases mem_intercalate_singleton _ c hc with rfl | ⟨w, hw, hcw⟩
    · exact ⟨by decide, by decide⟩
    · have hx := (hwords w hw).2 c hcw
      exact ⟨hx.2.1, hx.2.2⟩
  have hfilter : (pyCollapse ((l.filter keepChar).map Char.toLower)).filter
      keepChar = pyCollapse ((l.filter keepChar).map Char.toLower) :=
    List.filter_eq_self.mpr (fun c hc => (hkeepX c hc).1)
  have hmap : (pyCollapse ((l.filter keepChar).map Char.toLower)).map
      Char.toLower = pyCollapse ((l.filter keepChar).map Char.toLower) :=
    map_id_of_mem _ (fun c hc => (hkeepX c hc).2)
  rw [hfilter, hmap]
  show List.intercalate [' ']
    (pyWords (List.intercalate [' ']
      (pyWords ((l.filter keepChar).map Char.toLower)))) = _
  rw [pyWords_intercalate _ (fun w hw => (hwords w hw).1)
    (fun w hw c hc => by simp [((hwords w hw).2 c hc).1])]
  rfl

theorem normComponent_idem (s : String) :
    normComponent (normComponent s) = normComponent s := by
  unfold normComponent
  exact congrArg String.mk (normChars_idem s.data)

theorem keepChar_toLower_eq (c : Char) : keepChar c.toLower = keepChar c := by
  by_cases h : 65 ≤ c.toNat ∧ c.toNat ≤ 90
  · obtain ⟨n, h1, h2, hc⟩ : ∃ n, 65 ≤ n ∧ n ≤ 90 ∧ Char.ofNat n = c :=
      ⟨c.toNat, h.1, h.2, Char.ofNat_toNat c⟩
    subst hc
    interval_cases n <;> decide
  · rw [char_toLower_eq_self c h]

theorem lower_filter_map (l : List Char) :
    ((l.map Char.toLower).filter keepChar).map Char.toLower =
      (l.filter keepChar).map Char.toLower := by
  induction l with
  | nil => rfl
  | cons a t ih =>
    simp only [List.map_cons, List.filter_cons, keepChar_toLower_eq a]
    by_cases h : keepChar a = true
    · rw [if_pos h, if_pos h]
      simp only [List.map_cons, char_toLower_idem a]
      rw [ih]
    · rw [if_neg h, if_neg h]
      exact ih

theorem normComponent_pyLower (s : String) :
    normComponent (pyLower s) = normComponent s :=
  congrArg (fun l => String.mk (pyCollapse l)) (lower_filter_map s.data)

/-- C3 amended: the cross-run IdentityKey normalisation is idempotent and
case-insensitive (lowercasing the inputs does not change the key), the
storage client's copy agrees with it everywhere, and both key functions
agree on the spec's example key(" ML Engineer ", "Tech-Co") =
key("ml engineer", "techco"); the within-batch aggregator key however is
not insensitive to internal whitespace (see the counterexample). -/
theorem identity_key_normalization_amended :
    (∀ t c, normalizeJobKey (normComponent t) (normComponent c) =
      normalizeJobKey t c) ∧
    (∀ t c, normalizeJobKey (pyLower t) (pyLower c) =
      normalizeJobKey t c) ∧
    (∀ t c, storageNormalizeKey t c = normalizeJobKey t c) ∧
    normalizeJobKey " ML Engineer " "Tech-Co" =
      normalizeJobKey "ml engineer" "techco" ∧
    scraperJobKey " ML Engineer " "Tech-Co" =
      scraperJobKey "ml engineer" "techco" := by
  refine ⟨?_, ?_, fun t c => rfl, rfl, rfl⟩
  · intro t c
    unfold normalizeJobKey
    rw [normComponent_idem, normComponent_idem]
  · intro t c
    unfold normalizeJobKey
    rw [normComponent_pyLower, normComponent_pyLower]

/-- Witness for the amended C3 at a concrete punctuated input. -/
theorem identity_key_normalization_amended_witness :
    normalizeJobKey (normComponent "  A  b ") (normComponent "C-d") =
      normalizeJobKey "  A  b " "C-d" :=
  identity_key_normalization_amended.1 "  A  b " "C-d"
